import Mathlib

/-!
Verification development for the GatorMotion physical-therapy coaching
engine.  The Python numeric code is shallowly embedded over exact
rationals: every float becomes a rational, numpy square roots
(np.linalg.norm, np.std) are modelled by Rat.sqrt (exact on the
perfect-square inputs used in concrete evaluations; no claim below
depends on the accuracy of a square root), and library calls with no
closed form (np.linalg.svd, np.arccos) are passed in as explicit
oracle arguments constrained by their mathematical specification.
Display-only formatting (round(x, k)) is modelled by exact rational
rounding.  Fallible numpy operations (np.stack of an empty list,
broadcasting of incompatible shapes) are modelled with Except.
-/

namespace GatorMotion

set_option maxRecDepth 1000000

/-- One pose landmark in image space: x, y, z, visibility
(source: landmarks_list_to_np builds float32 (33, 4) arrays). -/
structure Landmark where
  x : ℚ
  y : ℚ
  z : ℚ
  vis : ℚ
deriving Repr, DecidableEq

/-- A raw frame: ordered landmark list (index i = MediaPipe landmark i). -/
abbrev Frame := List Landmark

/-- Array indexing with the zero landmark as default (models the
zero-initialised rows of landmarks_list_to_np). -/
def lmGet (f : Frame) (i : Nat) : Landmark := f.getD i ⟨0, 0, 0, 0⟩

/-- 2D dot product. -/
def dot2 (a b : ℚ × ℚ) : ℚ := a.1 * b.1 + a.2 * b.2

/-- Squared Euclidean norm of a 2D vector. -/
def normSq2 (v : ℚ × ℚ) : ℚ := v.1 ^ 2 + v.2 ^ 2

/-- pt_coach.common._unit: normalize a 2D vector, falling back to
(1, 0) when its norm is below eps = 1e-6. -/
def unitVec (v : ℚ × ℚ) : ℚ × ℚ :=
  let n := Rat.sqrt (normSq2 v)
  if n < 1e-6 then (1, 0) else (v.1 / n, v.2 / n)

/-- A body-frame landmark: x_body, y_body, z_scaled. -/
structure NormPt where
  xb : ℚ
  yb : ℚ
  zs : ℚ
deriving Repr, DecidableEq

/-- frame_info record emitted by the normalizer. -/
structure FrameInfo where
  pelvis : ℚ × ℚ
  xAxis : ℚ × ℚ
  yAxis : ℚ × ℚ
  scale : ℚ
deriving Repr, DecidableEq

/-- pt_coach.common.normalize_to_body_frame: hip-centred body frame.
np.linalg.norm is modelled by Rat.sqrt of the sum of squares. -/
def normalize_to_body_frame (lms : Frame) : List NormPt × FrameInfo :=
  let xy : Nat → ℚ × ℚ := fun i => ((lmGet lms i).x, (lmGet lms i).y)
  let lhip := xy 23
  let rhip := xy 24
  let lsh := xy 11
  let rsh := xy 12
  let pelvis : ℚ × ℚ := ((lhip.1 + rhip.1) * (1/2), (lhip.2 + rhip.2) * (1/2))
  let hipVec : ℚ × ℚ := (lhip.1 - rhip.1, lhip.2 - rhip.2)
  let hipWidth0 := Rat.sqrt (normSq2 hipVec)
  let hipWidth := max hipWidth0 1e-4
  let xAxis := unitVec hipVec
  let shoulderCenter : ℚ × ℚ := ((lsh.1 + rsh.1) * (1/2), (lsh.2 + rsh.2) * (1/2))
  let upGuess : ℚ × ℚ := (shoulderCenter.1 - pelvis.1, shoulderCenter.2 - pelvis.2)
  let d := dot2 upGuess xAxis
  let upProj0 : ℚ × ℚ := (upGuess.1 - d * xAxis.1, upGuess.2 - d * xAxis.2)
  let upProj := if Rat.sqrt (normSq2 upProj0) < 1e-6 then (-xAxis.2, xAxis.1) else upProj0
  let yAxis := unitVec upProj
  let norm := (List.range 33).map fun i =>
    let p := xy i
    let rel : ℚ × ℚ := (p.1 - pelvis.1, p.2 - pelvis.2)
    NormPt.mk (dot2 rel xAxis / hipWidth) (dot2 rel yAxis / hipWidth) ((lmGet lms i).z / hipWidth)
  (norm, ⟨pelvis, xAxis, yAxis, hipWidth⟩)

/-- FEATURE_LANDMARKS from pt_coach.common. -/
def FEATURE_LANDMARKS : List Nat := [11, 12, 13, 14, 15, 16, 23, 24, 25, 26, 27, 28, 31, 32]

/-- CORRECTION_LANDMARKS for the squat exercise. -/
def CORRECTION_LANDMARKS : List Nat := [25, 26, 27, 28, 31, 32]

/-- pt_coach.common.feature_vector: flatten selected body-frame landmarks. -/
def feature_vector (norm : List NormPt) (idxs : List Nat) : List ℚ :=
  (idxs.map fun i =>
    let p := norm.getD i ⟨0, 0, 0⟩
    [p.xb, p.yb, p.zs]).flatten

/-- pt_coach.common.compute_joint_angle_deg.  The transcendental call
np.degrees(np.arccos(c)) is modelled by an oracle argument acosD. -/
def compute_joint_angle_deg (acosD : ℚ → ℚ) (a b c : ℚ × ℚ) : ℚ :=
  let u : ℚ × ℚ := (a.1 - b.1, a.2 - b.2)
  let v : ℚ × ℚ := (c.1 - b.1, c.2 - b.2)
  let un := Rat.sqrt (normSq2 u)
  let vn := Rat.sqrt (normSq2 v)
  if un < 1e-6 ∨ vn < 1e-6 then 180
  else acosD (max (-1) (min 1 (dot2 u v / (un * vn))))

/-- pt_coach.common.knee_angles_deg: (left, right, mean). -/
def knee_angles_deg (acosD : ℚ → ℚ) (norm : List NormPt) : ℚ × ℚ × ℚ :=
  let pt : Nat → ℚ × ℚ := fun i =>
    let p := norm.getD i ⟨0, 0, 0⟩
    (p.xb, p.yb)
  let left := compute_joint_angle_deg acosD (pt 23) (pt 25) (pt 27)
  let right := compute_joint_angle_deg acosD (pt 24) (pt 26) (pt 28)
  (left, right, (left + right) * (1/2))

/-- pt_coach.common.moving_average: mean of the trailing window
(last element for window at most 1, 0 for empty data). -/
def moving_average (data : List ℚ) (window : Nat) : ℚ :=
  if data = [] then 0
  else if window ≤ 1 then (data.getLast?).getD 0
  else
    let arr := data.drop (data.length - window)
    arr.sum / (arr.length : ℚ)

/-- collections.deque with maxlen: append, then keep the trailing
maxlen entries. -/
def dequePush (maxlen : Nat) (xs : List ℚ) (x : ℚ) : List ℚ :=
  let ys := xs ++ [x]
  ys.drop (ys.length - maxlen)

/-- np.clip for scalars. -/
def clipQ (v lo hi : ℚ) : ℚ := min hi (max lo v)

/-- PTCoachEngine._quality_from_distance and
CoachV2Engine._quality_from_distance (identical bodies): map a match
distance to a quality score using the p50/p99 calibration with the
denominator floored at 1e-6. -/
def quality_from_distance (p50 p99 d : ℚ) : ℚ :=
  let denom := max 1e-6 (p99 - p50)
  clipQ (1 - (d - p50) / denom) 0 1

/-- Python round(x, 3), modelled by exact rational rounding to the
nearest thousandth (ties differ from IEEE round-half-even only on
exact half-thousandths, which no claim depends on). -/
def round3 (q : ℚ) : ℚ := ((round (q * 1000) : ℤ) : ℚ) / 1000

/-- Correction severity levels. -/
inductive Severity where
  | low
  | medium
  | high
deriving Repr, DecidableEq

/-- PTCoachEngine._severity_from_ratio. -/
def severity_from_ratio (r : ℚ) : Severity :=
  if r ≥ 2 then .high
  else if r ≥ 1.35 then .medium
  else .low

/-- The hysteresis update of PTCoachEngine.infer for one correction
landmark (live_coach.py lines 186-203): ratios against the floored
tolerances, activation and clearing thresholds, and the next value of
the active flag. -/
def newActiveFlag (wasActive : Bool) (dx dy tolX tolY : ℚ) : Bool :=
  let ratioX := |dx| / max tolX 1e-6
  let ratioY := |dy| / max tolY 1e-6
  let errRatio := max ratioX ratioY
  let shouldActivate :=
    decide (errRatio ≥ 2.5) && (decide (|dx| ≥ 0.06) || decide (|dy| ≥ 0.06))
  let shouldClear :=
    decide (errRatio ≤ 1.35) || (decide (|dx| ≤ 0.022) && decide (|dy| ≤ 0.03))
  (wasActive && !shouldClear) || (!wasActive && shouldActivate)

/-- Correction magnitude word chosen in PTCoachEngine.infer. -/
inductive Mag where
  | small
  | medium
  | large
deriving Repr, DecidableEq

/-- The phrase table of PTCoachEngine._correction_message. -/
def phraseMag : Mag → String
  | .small => "slightly"
  | .medium => ""
  | .large => "more"

/-- PTCoachEngine._correction_message. -/
def correctionMessage (side part direction : String) (mag : Mag) : String :=
  let pm := phraseMag mag
  if pm ≠ "" then
    ("Move your " ++ side ++ " " ++ part ++ " " ++ direction ++ " " ++ pm ++ ".").replace "  " " "
  else
    "Move your " ++ side ++ " " ++ part ++ " " ++ direction ++ "."

/-- PTCoachEngine._dominant_direction. -/
def dominantDirection (dx dy ratioX ratioY : ℚ) : String :=
  let dirs : List String :=
    (if ratioX ≥ 1.1 then [if dx > 0 then "right" else "left"] else []) ++
    (if ratioY ≥ 1.1 then [if dy > 0 then "down" else "up"] else [])
  match dirs with
  | [] =>
    if |dx| ≥ |dy| then (if dx > 0 then "right" else "left")
    else (if dy > 0 then "down" else "up")
  | [d] => d
  | d1 :: d2 :: _ => d1 ++ " and " ++ d2

/-- One metadata tolerance record: x and y bounds plus side and part labels. -/
structure TolEntry where
  x : ℚ
  y : ℚ
  side : String
  part : String
deriving Repr, DecidableEq

/-- The fields of an emitted correction that the specification constrains
(display-only fields such as target, why and ui are not modelled). -/
structure Correction where
  id : String
  severity : Severity
  text : String
  errRatio : ℚ
deriving Repr, DecidableEq

/-- The reference-model fields PTCoachEngine loads from the artifact. -/
structure PTModel where
  ref_norm : List (List NormPt)
  ref_features_scaled : List (List ℚ)
  feat_mean : List ℚ
  feat_std : List ℚ
  feature_landmarks : List Nat
  correction_landmarks : List Nat
  tol : Nat → TolEntry
  p50 : ℚ
  p99 : ℚ

/-- Rep-counter state values. -/
inductive RepState where
  | standing
  | down
deriving Repr, DecidableEq

/-- Mutable state of PTCoachEngine between infer calls. -/
structure PTState where
  repCount : Nat
  repState : RepState
  kneeHist : List ℚ
  qualityHist : List ℚ
  lastSpokenMessage : String
  lastMessageTs : Int
  activeCorrections : List (String × Bool)
deriving Repr, DecidableEq

/-- quality_hist capacity of PTCoachEngine (live_coach.py: deque(maxlen=15)). -/
def ptQualityHistMaxlen : Nat := 15

/-- quality_hist capacity of CoachV2Engine (coach_engine.py: deque(maxlen=12)). -/
def v2QualityHistMaxlen : Nat := 12

/-- knee_hist capacity of both engines (deque(maxlen=10)). -/
def kneeHistMaxlen : Nat := 10

/-- self.active_corrections.get(correction_id, False). -/
def lookupActive (m : List (String × Bool)) (k : String) : Bool :=
  ((m.find? fun p => p.1 == k).map Prod.snd).getD false

/-- self.active_corrections[correction_id] = value (dict assignment). -/
def setActive (m : List (String × Bool)) (k : String) (v : Bool) : List (String × Bool) :=
  if m.any fun p => p.1 == k then
    m.map fun p => if p.1 == k then (k, v) else p
  else
    m ++ [(k, v)]

/-- PTCoachEngine._scale_feature. -/
def scale_feature (m : PTModel) (feat : List ℚ) : List ℚ :=
  List.zipWith (· / ·) (List.zipWith (· - ·) feat m.feat_mean) m.feat_std

/-- Euclidean distance between two feature rows. -/
def euclidDist (a b : List ℚ) : ℚ :=
  Rat.sqrt (List.zipWith (fun x y => (x - y) ^ 2) a b).sum

/-- np.argmin with its value: first index attaining the minimum. -/
def argminFirst : List ℚ → Nat × ℚ
  | [] => (0, 0)
  | x :: xs =>
    let r := xs.foldl
      (fun (acc : Nat × ℚ × Nat) v =>
        if v < acc.2.1 then (acc.2.2, v, acc.2.2 + 1) else (acc.1, acc.2.1, acc.2.2 + 1))
      (0, x, 1)
    (r.1, r.2.1)

/-- PTCoachEngine._match_reference_index: nearest reference row and its
distance in scaled feature space. -/
def matchReferenceIndex (m : PTModel) (featScaled : List ℚ) : Nat × ℚ :=
  argminFirst (m.ref_features_scaled.map fun row => euclidDist row featScaled)

/-- PTCoachEngine._phase as a function of the matched index and the
reference length. -/
def phase_of (refIdx n : Nat) : String :=
  let t : ℚ := (refIdx : ℚ) / ((max 1 (n - 1) : Nat) : ℚ)
  if t < 0.2 then "setup"
  else if t < 0.45 then "descending"
  else if t < 0.6 then "bottom"
  else if t < 0.85 then "ascending"
  else "top"

/-- The _update_reps state machine shared by both engines (PTCoachEngine
uses the literal thresholds 125 and 160; CoachV2Engine its calibrated
down_threshold and standing_threshold). -/
def update_reps (downThr standThr : ℚ) (st : RepState) (count : Nat) (hist : List ℚ)
    (kneeAvg : ℚ) : RepState × Nat × List ℚ :=
  let hist2 := dequePush kneeHistMaxlen hist kneeAvg
  let k := moving_average hist2 5
  match st with
  | .standing => if k < downThr then (.down, count, hist2) else (.standing, count, hist2)
  | .down => if k > standThr then (.standing, count + 1, hist2) else (.down, count, hist2)

/-- The body of the per-correction-landmark loop of PTCoachEngine.infer:
deltas against the matched reference, tolerance ratios, hysteresis via
newActiveFlag, and the emitted correction when active. -/
def correctionStep (m : PTModel) (norm ref : List NormPt)
    (acc : List (String × Bool) × List Correction) (idx : Nat) :
    List (String × Bool) × List Correction :=
  let active := acc.1
  let cors := acc.2
  let cur := norm.getD idx ⟨0, 0, 0⟩
  let rp := ref.getD idx ⟨0, 0, 0⟩
  let dx := cur.xb - rp.xb
  let dy := cur.yb - rp.yb
  let t := m.tol idx
  let ratioX := |dx| / max t.x 1e-6
  let ratioY := |dy| / max t.y 1e-6
  let errRatio := max ratioX ratioY
  let cid := t.side.toUpper ++ "_" ++ t.part.toUpper ++ "_" ++ toString idx
  let wasActive := lookupActive active cid
  let isActive := newActiveFlag wasActive dx dy t.x t.y
  let active2 := setActive active cid isActive
  if isActive then
    let direction := dominantDirection dx dy ratioX ratioY
    let mag : Mag := if errRatio ≥ 2 then .large else if errRatio ≥ 1.35 then .medium else .small
    (active2,
     cors ++ [⟨cid, severity_from_ratio errRatio,
               correctionMessage t.side t.part direction mag, errRatio⟩])
  else
    (active2, cors)

/-- The full correction loop of PTCoachEngine.infer over the correction
landmarks, threading the hysteresis dictionary. -/
def processCorrections (m : PTModel) (active0 : List (String × Bool))
    (norm ref : List NormPt) : List (String × Bool) × List Correction :=
  m.correction_landmarks.foldl (correctionStep m norm ref) (active0, [])

/-- Mean visibility over shoulders, hips, knees and ankles
(live_coach.py line 270). -/
def visibilityOf (lms : Frame) : ℚ :=
  (([11, 12, 23, 24, 25, 26, 27, 28] : List Nat).map fun i => (lmGet lms i).vis).sum / 8

/-- The POSE_NOT_CLEAR marker appended when tracking confidence is poor
(the source dict carries no error_ratio; 0 is used as placeholder). -/
def poseNotClearCorrection : Correction :=
  ⟨"POSE_NOT_CLEAR", .low, "Move fully into frame and face the camera.", 0⟩

/-- Python round(x, 4). -/
def round4 (q : ℚ) : ℚ := ((round (q * 10000) : ℤ) : ℚ) / 10000

/-- Quality block of the output payload. -/
structure QualityInfo where
  score : ℚ
  confidence : ℚ
  distance : ℚ
deriving Repr, DecidableEq

/-- The output payload fields the specification constrains. -/
structure Payload where
  tsMs : Int
  phase : String
  rep : Nat
  referenceFrame : Nat
  quality : QualityInfo
  corrections : List Correction
deriving Repr, DecidableEq

/-- Body-frame normalization and feature matching of one frame. -/
def inferMatch (m : PTModel) (lms : Frame) : Nat × ℚ :=
  matchReferenceIndex m
    (scale_feature m (feature_vector (normalize_to_body_frame lms).1 m.feature_landmarks))

/-- The hysteresis dictionary and correction list produced by
PTCoachEngine.infer for one frame (before sorting and before the
POSE_NOT_CLEAR marker). -/
def inferCorrections (m : PTModel) (active0 : List (String × Bool)) (lms : Frame) :
    List (String × Bool) × List Correction :=
  processCorrections m active0 (normalize_to_body_frame lms).1
    (m.ref_norm.getD (inferMatch m lms).1 [])

/-- PTCoachEngine.infer: one frame in, payload and updated engine state
out.  Overlay smoothing (display-only ui coordinates) is not modelled. -/
def infer (acosD : ℚ → ℚ) (m : PTModel) (st : PTState) (lms : Frame) (tsMs : Int) :
    Payload × PTState :=
  let norm := (normalize_to_body_frame lms).1
  let refIdx := (inferMatch m lms).1
  let dist := (inferMatch m lms).2
  let quality := quality_from_distance m.p50 m.p99 dist
  let qualityHist2 := dequePush ptQualityHistMaxlen st.qualityHist quality
  let qualitySmooth := moving_average qualityHist2 8
  let kneeAvg := (knee_angles_deg acosD norm).2.2
  let ur := update_reps 125 160 st.repState st.repCount st.kneeHist kneeAvg
  let repState2 := ur.1
  let repCount2 := ur.2.1
  let kneeHist2 := ur.2.2
  let active2 := (inferCorrections m st.activeCorrections lms).1
  let cors := (inferCorrections m st.activeCorrections lms).2.mergeSort
    fun a b => decide (b.errRatio ≤ a.errRatio)
  let vis := visibilityOf lms
  let speech : String × Int :=
    match cors with
    | [] => (st.lastSpokenMessage, st.lastMessageTs)
    | top :: _ =>
      if (top.severity == .medium || top.severity == .high)
          && (top.text != st.lastSpokenMessage || decide (tsMs - st.lastMessageTs > 5000)) then
        (top.text, tsMs)
      else
        (st.lastSpokenMessage, st.lastMessageTs)
  let corsFinal := if vis < 0.35 ∧ cors = [] then cors ++ [poseNotClearCorrection] else cors
  (⟨tsMs, phase_of refIdx m.ref_norm.length, repCount2, refIdx,
    ⟨round3 qualitySmooth, round3 (clipQ vis 0 1), round4 dist⟩, corsFinal⟩,
   ⟨repCount2, repState2, kneeHist2, qualityHist2, speech.1, speech.2, active2⟩)

/-- Mean of a list (np.mean along an axis, one column at a time). -/
def colMean (col : List ℚ) : ℚ := col.sum / (col.length : ℚ)

/-- np.std of one column (population standard deviation), with np.sqrt
modelled by Rat.sqrt. -/
def npStd (col : List ℚ) : ℚ :=
  Rat.sqrt ((col.map fun v => (v - colMean col) ^ 2).sum / (col.length : ℚ))

/-- The per-column guard of train_reference.robust_std: replace a raw
standard deviation below eps = 1e-6 by 1. -/
def robustStdCol (col : List ℚ) : ℚ :=
  let s := npStd col
  if s < 1e-6 then 1 else s

/-- train_reference.robust_std: np.where(std < eps, 1.0, std) with
std = np.std(a, axis=0). -/
def robust_std (a : List (List ℚ)) : List ℚ :=
  a.transpose.map robustStdCol

/-- np.percentile with the default linear interpolation. -/
def percentile (arr : List ℚ) (p : ℚ) : ℚ :=
  let s := arr.mergeSort fun a b => decide (a ≤ b)
  let n := s.length
  let h : ℚ := ((n : ℚ) - 1) * p / 100
  let lo : Nat := h.floor.toNat
  let frac : ℚ := h - (lo : ℚ)
  let a := s.getD lo 0
  let b := s.getD (lo + 1) a
  a + frac * (b - a)

/-- Full discrete convolution (np.convolve mode full). -/
def convolveFull (a v : List ℚ) : List ℚ :=
  (List.range (a.length + v.length - 1)).map fun k =>
    ((List.range (k + 1)).map fun j => a.getD j 0 * v.getD (k - j) 0).sum

/-- np.convolve mode same: the centred max(M, N) entries of the full
convolution. -/
def convolveSame (a v : List ℚ) : List ℚ :=
  let n := max a.length v.length
  let s := (min a.length v.length - 1) / 2
  ((convolveFull a v).drop s).take n

/-- train_reference._smooth_1d: centred moving average by convolution
with a box kernel of width w. -/
def smooth1d (arr : List ℚ) (w : Nat) : List ℚ :=
  convolveSame arr (List.replicate w (1 / (w : ℚ)))

/-- Numpy 1-D broadcasting subtraction: equal lengths subtract
elementwise, a length-1 operand broadcasts, anything else raises. -/
inductive TrainError where
  | emptyStack
  | broadcastMismatch
  | insufficientReferenceFrames
  | degenerateReference
deriving Repr, DecidableEq

/-- Broadcasting subtraction for 1-D arrays (raw - smoothed in the
tolerance residual); shape errors are the only way the trainer aborts
after the empty-corpus check. -/
def npBroadcastSub (a b : List ℚ) : Except TrainError (List ℚ) :=
  if a.length = b.length then .ok (List.zipWith (· - ·) a b)
  else if a.length = 1 then .ok (b.map fun y => a.headD 0 - y)
  else if b.length = 1 then .ok (a.map fun x => x - b.headD 0)
  else .error .broadcastMismatch

/-- SIDE_BY_INDEX from pt_coach.common. -/
def sideOf (idx : Nat) : String :=
  if idx ∈ ([11, 13, 15, 23, 25, 27, 31] : List Nat) then "left"
  else if idx ∈ ([12, 14, 16, 24, 26, 28, 32] : List Nat) then "right"
  else ""

/-- PART_BY_INDEX from pt_coach.common. -/
def partOf (idx : Nat) : String :=
  if idx = 11 ∨ idx = 12 then "shoulder"
  else if idx = 13 ∨ idx = 14 then "elbow"
  else if idx = 15 ∨ idx = 16 then "wrist"
  else if idx = 23 ∨ idx = 24 then "hip"
  else if idx = 25 ∨ idx = 26 then "knee"
  else if idx = 27 ∨ idx = 28 then "ankle"
  else if idx = 31 ∨ idx = 32 then "foot"
  else ""

/-- Leave-one-out nearest-neighbour distances: row minima of the
pairwise distance matrix with the diagonal set to infinity (modelled
as the minimum over the other indices; a singleton corpus, where numpy
would yield infinity, gets the placeholder 0 - no claim depends on it). -/
def looNearest (rows : List (List ℚ)) : List ℚ :=
  (List.range rows.length).map fun i =>
    match ((List.range rows.length).filter fun j => j ≠ i).map
        (fun j => euclidDist (rows.getD i []) (rows.getD j [])) with
    | [] => 0
    | x :: xs => xs.foldl min x

/-- The trained reference-model artifact (numeric fields of the npz
blob and of the metadata record). -/
structure RefModel where
  ref_norm : List (List NormPt)
  ref_features_scaled : List (List ℚ)
  feat_mean : List ℚ
  feat_std : List ℚ
  dist_p50 : ℚ
  dist_p90 : ℚ
  dist_p99 : ℚ
  knee_p10 : ℚ
  knee_p50 : ℚ
  knee_p90 : ℚ
  tol : List (Nat × TolEntry)
deriving Repr, DecidableEq

/-- One iteration of the tolerance loop of train_reference.train:
smoothed-trajectory residual, 90th percentile, scale and floor. -/
def tolForLandmark (refNorm : List (List NormPt)) (w : Nat) (idx : Nat) :
    Except TrainError (Nat × TolEntry) := do
  let rawX := refNorm.map fun row => (row.getD idx ⟨0, 0, 0⟩).xb
  let rawY := refNorm.map fun row => (row.getD idx ⟨0, 0, 0⟩).yb
  let residX := (← npBroadcastSub rawX (smooth1d rawX w)).map abs
  let residY := (← npBroadcastSub rawY (smooth1d rawY w)).map abs
  let tolX := percentile residX 90 * 3 + 0.03
  let tolY := percentile residY 90 * 3 + 0.04
  pure (idx, ⟨max 0.05 tolX, max 0.06 tolY, sideOf idx, partOf idx⟩)

/-- train_reference.train: normalize and stack the corpus, standardize
features with robust_std, calibrate distances from leave-one-out
nearest neighbours, calibrate knee angles, and derive per-landmark
tolerances.  np.stack of an empty list raises (emptyStack); the only
other failure is a broadcasting mismatch inside the tolerance loop.
The source defines no other error condition: the constructors
insufficientReferenceFrames and degenerateReference exist because the
specification names them, and are never produced. -/
def train (acosD : ℚ → ℚ) (correctionLandmarks : List Nat) (frames : List Frame) :
    Except TrainError RefModel :=
  if frames.isEmpty then .error .emptyStack
  else
    let refNorm := frames.map fun f => (normalize_to_body_frame f).1
    let refFeatures := refNorm.map fun n => feature_vector n FEATURE_LANDMARKS
    let refKnees := refNorm.map fun n => (knee_angles_deg acosD n).2.2
    let featMean := refFeatures.transpose.map colMean
    let featStd := robust_std refFeatures
    let refScaled := refFeatures.map fun row =>
      List.zipWith (· / ·) (List.zipWith (· - ·) row featMean) featStd
    let looNN := looNearest refScaled
    let n := refNorm.length
    let w := max 3 (min 7 (n / 30))
    match correctionLandmarks.mapM (tolForLandmark refNorm w) with
    | .error e => .error e
    | .ok tol =>
      .ok { ref_norm := refNorm
            ref_features_scaled := refScaled
            feat_mean := featMean
            feat_std := featStd
            dist_p50 := percentile looNN 50
            dist_p90 := percentile looNN 90
            dist_p99 := percentile looNN 99
            knee_p10 := percentile refKnees 10
            knee_p50 := percentile refKnees 50
            knee_p90 := percentile refKnees 90
            tol := tol }

/-- A float value in the non-finite-aware model: some q is a finite
value, none models a non-finite float (NaN or infinity).  IEEE
comparisons against a non-finite norm (always NaN or plus infinity
here) are false, and arithmetic propagates non-finiteness. -/
abbrev OF := Option ℚ

/-- Float addition with non-finite propagation. -/
def oAdd : OF → OF → OF
  | some a, some b => some (a + b)
  | _, _ => none

/-- Float subtraction with non-finite propagation. -/
def oSub : OF → OF → OF
  | some a, some b => some (a - b)
  | _, _ => none

/-- Float multiplication with non-finite propagation. -/
def oMul : OF → OF → OF
  | some a, some b => some (a * b)
  | _, _ => none

/-- Float division: division by zero produces a non-finite value. -/
def oDiv : OF → OF → OF
  | some a, some b => if b = 0 then none else some (a / b)
  | _, _ => none

/-- Float negation. -/
def oNeg : OF → OF := Option.map (fun q => -q)

/-- Float square root (of a negative value: NaN). -/
def oSqrt : OF → OF
  | some a => if a < 0 then none else some (Rat.sqrt a)
  | none => none

/-- Comparison x less-than c: false when x is NaN or plus infinity
(the only non-finite values reaching comparisons here are norms). -/
def oLt (x : OF) (c : ℚ) : Bool :=
  match x with
  | some q => decide (q < c)
  | none => false

/-- Python max(x, c) on floats: a NaN or plus-infinity first argument
propagates (max compares c greater-than x, false for NaN). -/
def oMaxC (x : OF) (c : ℚ) : OF :=
  match x with
  | some q => some (max q c)
  | none => none

/-- A landmark whose coordinates may be non-finite. -/
structure LandmarkF where
  x : OF
  y : OF
  z : OF
  vis : OF
deriving Repr, DecidableEq

/-- A raw frame over possibly non-finite floats. -/
abbrev FrameF := List LandmarkF

/-- Indexing with a zero default, as in lmGet. -/
def lmGetF (f : FrameF) (i : Nat) : LandmarkF :=
  f.getD i ⟨some 0, some 0, some 0, some 0⟩

/-- A body-frame landmark over possibly non-finite floats. -/
structure NormPtF where
  xb : OF
  yb : OF
  zs : OF
deriving Repr, DecidableEq

/-- 2D dot product over possibly non-finite floats. -/
def dot2F (a b : OF × OF) : OF := oAdd (oMul a.1 b.1) (oMul a.2 b.2)

/-- The norm of a 2D vector over possibly non-finite floats. -/
def norm2F (v : OF × OF) : OF := oSqrt (oAdd (oMul v.1 v.1) (oMul v.2 v.2))

/-- pt_coach.common._unit over possibly non-finite floats. -/
def unitVecF (v : OF × OF) : OF × OF :=
  let n := norm2F v
  if oLt n 1e-6 then (some 1, some 0) else (oDiv v.1 n, oDiv v.2 n)

/-- The raw (unfloored) hip width of a frame. -/
def hipWidthRawF (lms : FrameF) : OF :=
  norm2F (oSub (lmGetF lms 23).x (lmGetF lms 24).x, oSub (lmGetF lms 23).y (lmGetF lms 24).y)

/-- The error kind the specification assigns to the normalizer.  The
source of normalize_to_body_frame contains no raise statement, so the
embedding never produces it. -/
inductive NormError where
  | degeneratePose
deriving Repr, DecidableEq

/-- normalize_to_body_frame over possibly non-finite floats, with the
Except result making the fails-with claim statable: every code path of
the source returns a value, so the result is always ok. -/
def normalize_to_body_frameF (lms : FrameF) : Except NormError (List NormPtF) :=
  let xy : Nat → OF × OF := fun i => ((lmGetF lms i).x, (lmGetF lms i).y)
  let lhip := xy 23
  let rhip := xy 24
  let lsh := xy 11
  let rsh := xy 12
  let half : OF := some (1/2)
  let pelvis : OF × OF := (oMul (oAdd lhip.1 rhip.1) half, oMul (oAdd lhip.2 rhip.2) half)
  let hipVec : OF × OF := (oSub lhip.1 rhip.1, oSub lhip.2 rhip.2)
  let hipWidth := oMaxC (norm2F hipVec) 1e-4
  let xAxis := unitVecF hipVec
  let shoulderCenter : OF × OF := (oMul (oAdd lsh.1 rsh.1) half, oMul (oAdd lsh.2 rsh.2) half)
  let upGuess : OF × OF := (oSub shoulderCenter.1 pelvis.1, oSub shoulderCenter.2 pelvis.2)
  let d := dot2F upGuess xAxis
  let upProj0 : OF × OF := (oSub upGuess.1 (oMul d xAxis.1), oSub upGuess.2 (oMul d xAxis.2))
  let upProj := if oLt (norm2F upProj0) 1e-6 then (oNeg xAxis.2, xAxis.1) else upProj0
  let yAxis := unitVecF upProj
  .ok ((List.range 33).map fun i =>
    let p := xy i
    let rel : OF × OF := (oSub p.1 pelvis.1, oSub p.2 pelvis.2)
    NormPtF.mk (oDiv (dot2F rel xAxis) hipWidth) (oDiv (dot2F rel yAxis) hipWidth)
      (oDiv (lmGetF lms i).z hipWidth))

/-- 2 by 2 rational matrices (the Procrustes kernel works on (K, 2)
point sets, so every matrix in it is 2 by 2). -/
structure Mat2 where
  a : ℚ
  b : ℚ
  c : ℚ
  d : ℚ
deriving Repr, DecidableEq

/-- Matrix product. -/
def Mat2.mul (M N : Mat2) : Mat2 :=
  ⟨M.a * N.a + M.b * N.c, M.a * N.b + M.b * N.d,
   M.c * N.a + M.d * N.c, M.c * N.b + M.d * N.d⟩

/-- Matrix transpose. -/
def Mat2.transpose (M : Mat2) : Mat2 := ⟨M.a, M.c, M.b, M.d⟩

/-- Determinant. -/
def Mat2.det (M : Mat2) : ℚ := M.a * M.d - M.b * M.c

/-- Identity matrix (np.eye(2)). -/
def Mat2.id2 : Mat2 := ⟨1, 0, 0, 1⟩

/-- Diagonal matrix (np.diag). -/
def Mat2.diag (x y : ℚ) : Mat2 := ⟨x, 0, 0, y⟩

/-- Matrix-vector product. -/
def Mat2.mulVec (M : Mat2) (v : ℚ × ℚ) : ℚ × ℚ :=
  (M.a * v.1 + M.b * v.2, M.c * v.1 + M.d * v.2)

/-- Orthogonality: the transpose is a left inverse. -/
def Mat2.orthog (M : Mat2) : Prop := M.transpose.mul M = Mat2.id2

/-- Mean of a 2D point set. -/
def meanPt (pts : List (ℚ × ℚ)) : ℚ × ℚ :=
  ((pts.map Prod.fst).sum / (pts.length : ℚ), (pts.map Prod.snd).sum / (pts.length : ℚ))

/-- Centering on the mean. -/
def centerPts (pts : List (ℚ × ℚ)) : List (ℚ × ℚ) :=
  let m := meanPt pts
  pts.map fun p => (p.1 - m.1, p.2 - m.2)

/-- Squared Frobenius norm of a (K, 2) point set. -/
def frobSq (pts : List (ℚ × ℚ)) : ℚ := (pts.map fun p => p.1 ^ 2 + p.2 ^ 2).sum

/-- The cross-covariance M = user_c.T @ ref_c of two centred point sets. -/
def crossCov (u r : List (ℚ × ℚ)) : Mat2 :=
  ⟨(List.zipWith (fun p q => p.1 * q.1) u r).sum,
   (List.zipWith (fun p q => p.1 * q.2) u r).sum,
   (List.zipWith (fun p q => p.2 * q.1) u r).sum,
   (List.zipWith (fun p q => p.2 * q.2) u r).sum⟩

/-- An oracle answer of np.linalg.svd for a 2 by 2 matrix. -/
structure SVD2 where
  U : Mat2
  s1 : ℚ
  s2 : ℚ
  Vt : Mat2
deriving Repr, DecidableEq

/-- The mathematical specification of np.linalg.svd(M): orthogonal
factors, non-negative singular values in non-increasing order, and the
factorization itself. -/
def IsSVDOf (M : Mat2) (sv : SVD2) : Prop :=
  sv.U.orthog ∧ sv.Vt.orthog ∧ sv.s2 ≤ sv.s1 ∧ 0 ≤ sv.s2 ∧
    M = (sv.U.mul (Mat2.diag sv.s1 sv.s2)).mul sv.Vt

/-- pt_coach.common.procrustes_align_2d.  The library call
np.linalg.svd is passed in as the oracle argument sv (the theorems
constrain it with IsSVDOf of the cross-covariance of the centred point
sets); np.linalg.norm is Rat.sqrt of the squared Frobenius norm. -/
def procrustes_align_2d (userPts refPts : List (ℚ × ℚ)) (sv : SVD2)
    (allowReflection : Bool := false) : List (ℚ × ℚ) × Mat2 × ℚ × (ℚ × ℚ) :=
  let uMean := meanPt userPts
  let rMean := meanPt refPts
  let uC := centerPts userPts
  let rC := centerPts refPts
  let uNorm := Rat.sqrt (frobSq uC)
  let rNorm := Rat.sqrt (frobSq rC)
  if uNorm < 1e-8 ∨ rNorm < 1e-8 then
    (refPts, Mat2.id2, 1, (0, 0))
  else
    let s := uNorm / rNorm
    let R :=
      if !allowReflection then
        (sv.U.mul (Mat2.diag 1 (sv.U.mul sv.Vt).det)).mul sv.Vt
      else
        sv.U.mul sv.Vt
    let aligned := rC.map fun p =>
      let q := Mat2.mulVec R p
      (s * q.1 + uMean.1, s * q.2 + uMean.2)
    let t : ℚ × ℚ :=
      (uMean.1 - s * (Mat2.mulVec R rMean).1, uMean.2 - s * (Mat2.mulVec R rMean).2)
    (aligned, R, s, t)

/-- A frame of 33 all-zero landmarks (visibility 0 everywhere). -/
def frameZeroVis : Frame := List.replicate 33 ⟨0, 0, 0, 0⟩

/-- A three-frame reference corpus (each frame identical and degenerate,
which the trainer tolerates). -/
def refCorpus3 : List Frame := List.replicate 3 frameZeroVis

/-- A trivial instantiation of the arccos oracle (no claim constrains
its values; with degenerate joints the angle code never calls it). -/
def acosZero : ℚ → ℚ := fun _ => 0

/-- A minimal concrete reference model for engine evaluations: one
all-zero reference frame, zero means, unit deviations, and the
tolerance floors produced by the trainer. -/
def modelZero : PTModel :=
  { ref_norm := [List.replicate 33 ⟨0, 0, 0⟩]
    ref_features_scaled := [List.replicate 42 0]
    feat_mean := List.replicate 42 0
    feat_std := List.replicate 42 1
    feature_landmarks := FEATURE_LANDMARKS
    correction_landmarks := CORRECTION_LANDMARKS
    tol := fun _ => ⟨0.05, 0.06, "left", "knee"⟩
    p50 := 0
    p99 := 1 }

/-- The initial engine state set up by PTCoachEngine.__init__. -/
def stateInit : PTState := ⟨0, .standing, [], [], "", 0, []⟩

/-- A body frame displaced one hip width along x at every landmark. -/
def normShifted : List NormPt := List.replicate 33 ⟨1, 0, 0⟩

/-- An all-invisible frame whose left knee is displaced: every landmark
has visibility 0, yet after body-frame normalization (hip width floored
to 1e-4) the knee deviates far beyond tolerance, so the hysteresis loop
emits a correction despite the zero visibilities. -/
def frameShiftVis0 : Frame :=
  (List.replicate 33 (⟨0, 0, 0, 0⟩ : Landmark)).set 25 ⟨1, 0, 0, 0⟩

/-- The all-zero body frame. -/
def normZero : List NormPt := List.replicate 33 ⟨0, 0, 0⟩

/-- A frame whose hips coincide (raw hip width 0) and whose first
landmark has a non-finite z coordinate. -/
def frameC8 : FrameF :=
  ⟨some (1/2), some (1/2), none, some 1⟩ ::
    List.replicate 32 ⟨some (1/2), some (1/2), some 0, some 1⟩

/-- A concrete centred point set for Procrustes evaluations. -/
def ptsX4 : List (ℚ × ℚ) := [(1, 0), (-1, 0), (0, 2), (0, -2)]

/-- A concrete singular value decomposition of the cross-covariance of
ptsX4 with itself (the swap matrix is orthogonal and symmetric). -/
def svdX4 : SVD2 := ⟨⟨0, 1, 1, 0⟩, 8, 2, ⟨0, 1, 1, 0⟩⟩

/-- A placeholder oracle answer for calls that return before the
decomposition is taken. -/
def svdTrivial : SVD2 := ⟨Mat2.id2, 0, 0, Mat2.id2⟩

/-- Folding the rep-counter state machine over a stream of mean knee
angles (one update_reps call per infer call). -/
def runReps (downThr standThr : ℚ) (init : RepState × Nat × List ℚ) (ks : List ℚ) :
    RepState × Nat × List ℚ :=
  ks.foldl (fun acc k => update_reps downThr standThr acc.1 acc.2.1 acc.2.2 k) init

theorem roundQ_mono {x y : ℚ} (h : x ≤ y) : round x ≤ round y := by
  rw [round_eq, round_eq]
  exact Int.floor_le_floor (by linarith)

theorem round3_mem_unit {q : ℚ} (h0 : 0 ≤ q) (h1 : q ≤ 1) :
    0 ≤ round3 q ∧ round3 q ≤ 1 := by
  unfold round3
  have hlo : (0 : ℤ) ≤ round (q * 1000) := by
    have h := roundQ_mono (show (0 : ℚ) ≤ q * 1000 by nlinarith)
    simpa using h
  have hhi : round (q * 1000) ≤ (1000 : ℤ) := by
    have h := roundQ_mono (show q * 1000 ≤ ((1000 : ℤ) : ℚ) by push_cast; nlinarith)
    simpa using h
  constructor
  · exact div_nonneg (by exact_mod_cast hlo) (by norm_num)
  · rw [div_le_one (by norm_num)]
    exact_mod_cast hhi

theorem moving_average_mem_unit {l : List ℚ} (w : Nat)
    (h : ∀ x ∈ l, 0 ≤ x ∧ x ≤ 1) :
    0 ≤ moving_average l w ∧ moving_average l w ≤ 1 := by
  unfold moving_average
  split
  · norm_num
  · next hne =>
    split
    · cases hlast : l.getLast? with
      | none => simp
      | some a =>
        have ha : a ∈ l := List.mem_of_mem_getLast? (by rw [hlast]; exact rfl)
        simpa using h a ha
    · have hlen1 : 1 ≤ l.length := List.length_pos.mpr hne
      set arr := l.drop (l.length - w) with harr
      have hsub : ∀ x ∈ arr, x ∈ l := fun x hx => List.mem_of_mem_drop hx
      have hpos : 0 < arr.length := by
        rw [harr, List.length_drop]
        omega
      have hnn : 0 ≤ arr.sum := List.sum_nonneg fun x hx => (h x (hsub x hx)).1
      have hup : arr.sum ≤ (arr.length : ℚ) := by
        have := List.sum_le_card_nsmul arr 1 fun x hx => (h x (hsub x hx)).2
        simpa using this
      constructor
      · exact div_nonneg hnn (by positivity)
      · rw [div_le_one (by exact_mod_cast hpos)]
        exact hup

theorem quality_from_distance_mem_unit (p50 p99 d : ℚ) :
    0 ≤ quality_from_distance p50 p99 d ∧ quality_from_distance p50 p99 d ≤ 1 := by
  unfold quality_from_distance clipQ
  exact ⟨le_min (by norm_num) (le_max_left _ _), min_le_left _ _⟩

theorem mem_dequePush {cap : Nat} {l : List ℚ} {q x : ℚ}
    (h : x ∈ dequePush cap l q) : x ∈ l ∨ x = q := by
  unfold dequePush at h
  rcases List.mem_append.mp (List.mem_of_mem_drop h) with h1 | h2
  · exact .inl h1
  · exact .inr (by simpa using h2)

/-- C1: in PTCoachEngine.infer, for every correction landmark and frame,
with err_ratio = max(abs dx / tol_x, abs dy / tol_y) (well defined once
the tolerances are at least the 1e-6 floor, as every trained tolerance
is): an inactive correction becomes active exactly when err_ratio is at
least 2.5 and abs dx is at least 0.06 or abs dy is at least 0.06; an
active one is cleared exactly when err_ratio is at most 1.35 or abs dx
is at most 0.022 and abs dy is at most 0.03; otherwise the previous
state is retained. -/
theorem c1_tolerance_hysteresis (wasActive : Bool) (dx dy tolX tolY : ℚ)
    (hx : (1e-6 : ℚ) ≤ tolX) (hy : (1e-6 : ℚ) ≤ tolY) :
    (wasActive = false →
      (newActiveFlag wasActive dx dy tolX tolY = true ↔
        (2.5 ≤ max (|dx| / tolX) (|dy| / tolY) ∧ (0.06 ≤ |dx| ∨ 0.06 ≤ |dy|)))) ∧
    (wasActive = true →
      (newActiveFlag wasActive dx dy tolX tolY = false ↔
        (max (|dx| / tolX) (|dy| / tolY) ≤ 1.35 ∨ (|dx| ≤ 0.022 ∧ |dy| ≤ 0.03)))) ∧
    (¬(2.5 ≤ max (|dx| / tolX) (|dy| / tolY) ∧ (0.06 ≤ |dx| ∨ 0.06 ≤ |dy|)) →
      ¬(max (|dx| / tolX) (|dy| / tolY) ≤ 1.35 ∨ (|dx| ≤ 0.022 ∧ |dy| ≤ 0.03)) →
      newActiveFlag wasActive dx dy tolX tolY = wasActive) := by
  have hx2 : max tolX 1e-6 = tolX := max_eq_left hx
  have hy2 : max tolY 1e-6 = tolY := max_eq_left hy
  refine ⟨?_, ?_, ?_⟩
  · rintro rfl
    simp [newActiveFlag, hx2, hy2, Bool.and_eq_true, Bool.or_eq_true, decide_eq_true_eq]
  · rintro rfl
    simp only [newActiveFlag, hx2, hy2, Bool.true_and, Bool.not_false, Bool.not_true,
      Bool.false_and, Bool.or_false, Bool.not_eq_false', Bool.or_eq_true, Bool.and_eq_true,
      decide_eq_true_eq, ge_iff_le]
  · intro hA hC
    cases wasActive
    · simp only [newActiveFlag, hx2, hy2, Bool.false_and, Bool.not_false, Bool.true_and,
        Bool.false_or, Bool.and_eq_false_iff, Bool.or_eq_false_iff,
        decide_eq_false_iff_not, decide_eq_true_eq, ge_iff_le]
      tauto
    · simp only [newActiveFlag, hx2, hy2, Bool.true_and, Bool.not_false, Bool.false_and,
        Bool.or_false, Bool.not_eq_true', Bool.or_eq_false_iff, Bool.and_eq_false_iff,
        decide_eq_false_iff_not, decide_eq_true_eq, ge_iff_le, Bool.not_eq_false',
        Bool.or_eq_true, Bool.and_eq_true]
      tauto

/-- C1 witness: a concrete inactive correction with err_ratio 10 and
dx 1 activates. -/
theorem c1_tolerance_hysteresis_witness :
    newActiveFlag false 1 0 (1/10) (1/10) = true ∧ (1e-6 : ℚ) ≤ 1/10 :=
  ⟨((c1_tolerance_hysteresis false 1 0 (1/10) (1/10)
        (of_decide_eq_true (by with_unfolding_all rfl))
        (of_decide_eq_true (by with_unfolding_all rfl))).1
      rfl).mpr
    ⟨of_decide_eq_true (by with_unfolding_all rfl),
     Or.inl (of_decide_eq_true (by with_unfolding_all rfl))⟩,
   of_decide_eq_true (by with_unfolding_all rfl)⟩

/-- C2: the per-frame quality equals clip(1 - (d - p50)/(p99 - p50), 0, 1)
with the denominator floored at 1e-6, lies in the unit interval, and the
smoothed quality.score reported by infer (the rounded mean of the ring of
such values) lies in the unit interval. -/
theorem c2_quality_score_bounds :
    (∀ p50 p99 d : ℚ,
      quality_from_distance p50 p99 d =
        clipQ (1 - (d - p50) / max 1e-6 (p99 - p50)) 0 1 ∧
      0 ≤ quality_from_distance p50 p99 d ∧ quality_from_distance p50 p99 d ≤ 1) ∧
    (∀ (acosD : ℚ → ℚ) (m : PTModel) (st : PTState) (lms : Frame) (ts : Int),
      (∀ x ∈ st.qualityHist, 0 ≤ x ∧ x ≤ 1) →
      0 ≤ (infer acosD m st lms ts).1.quality.score ∧
        (infer acosD m st lms ts).1.quality.score ≤ 1) := by
  constructor
  · intro p50 p99 d
    exact ⟨rfl, quality_from_distance_mem_unit p50 p99 d⟩
  · intro acosD m st lms ts hhist
    have hq := quality_from_distance_mem_unit m.p50 m.p99 (inferMatch m lms).2
    have hall : ∀ x ∈ dequePush ptQualityHistMaxlen st.qualityHist
        (quality_from_distance m.p50 m.p99 (inferMatch m lms).2), 0 ≤ x ∧ x ≤ 1 := by
      intro x hx
      rcases mem_dequePush hx with h | h
      · exact hhist x h
      · rw [h]
        exact hq
    have hma := moving_average_mem_unit 8 hall
    exact round3_mem_unit hma.1 hma.2

/-- C2 witness: the bounds hold on a concrete engine evaluation with the
empty initial quality history. -/
theorem c2_quality_score_bounds_witness :
    0 ≤ (infer acosZero modelZero stateInit frameZeroVis 0).1.quality.score ∧
      (infer acosZero modelZero stateInit frameZeroVis 0).1.quality.score ≤ 1 :=
  c2_quality_score_bounds.2 acosZero modelZero stateInit frameZeroVis 0
    (by intro x hx; simp [stateInit] at hx)

/-- C5: in both coaching engines the rep counter is monotonically
non-decreasing over any sequence of updates, and it increments (by
exactly 1) only on a down-to-standing transition, which happens only
when the 5-sample moving average of the knee-angle history exceeds the
standing threshold (PTCoachEngine instantiates the thresholds as 125
and 160; CoachV2Engine as its calibrated p10 and p90). -/
theorem c5_rep_count_monotone :
    (∀ (dThr sThr : ℚ) (st : RepState) (count : Nat) (hist : List ℚ) (k : ℚ),
      (update_reps dThr sThr st count hist k).2.1 = count ∨
        ((update_reps dThr sThr st count hist k).2.1 = count + 1 ∧ st = .down ∧
          (update_reps dThr sThr st count hist k).1 = .standing ∧
          sThr < moving_average (dequePush kneeHistMaxlen hist k) 5)) ∧
    (∀ (dThr sThr : ℚ) (st : RepState) (count : Nat) (hist : List ℚ) (k : ℚ),
      (update_reps dThr sThr st count hist k).2.1 ≠ count →
        ((update_reps dThr sThr st count hist k).2.1 = count + 1 ∧ st = .down ∧
          (update_reps dThr sThr st count hist k).1 = .standing ∧
          sThr < moving_average (dequePush kneeHistMaxlen hist k) 5)) ∧
    (∀ (dThr sThr : ℚ) (init : RepState × Nat × List ℚ) (ks : List ℚ),
      init.2.1 ≤ (runReps dThr sThr init ks).2.1) ∧
    (∀ (acosD : ℚ → ℚ) (m : PTModel) (st : PTState) (lms : Frame) (ts : Int),
      st.repCount ≤ (infer acosD m st lms ts).2.repCount) := by
  have step : ∀ (dThr sThr : ℚ) (st : RepState) (count : Nat) (hist : List ℚ) (k : ℚ),
      (update_reps dThr sThr st count hist k).2.1 = count ∨
        ((update_reps dThr sThr st count hist k).2.1 = count + 1 ∧ st = .down ∧
          (update_reps dThr sThr st count hist k).1 = .standing ∧
          sThr < moving_average (dequePush kneeHistMaxlen hist k) 5) := by
    intro dThr sThr st count hist k
    cases st
    · simp only [update_reps]
      split_ifs with h
      · exact .inl rfl
      · exact .inl rfl
    · simp only [update_reps]
      split_ifs with h
      · exact .inr ⟨rfl, by trivial, rfl, h⟩
      · exact .inl rfl
  have mono : ∀ (dThr sThr : ℚ) (st : RepState) (count : Nat) (hist : List ℚ) (k : ℚ),
      count ≤ (update_reps dThr sThr st count hist k).2.1 := by
    intro dThr sThr st count hist k
    rcases step dThr sThr st count hist k with h | h
    · exact h.ge
    · rw [h.1]
      exact Nat.le_succ _
  refine ⟨step, ?_, ?_, ?_⟩
  · intro dThr sThr st count hist k hne
    rcases step dThr sThr st count hist k with h | h
    · exact absurd h hne
    · exact h
  · intro dThr sThr init ks
    induction ks generalizing init with
    | nil => exact le_refl _
    | cons k t ih =>
      have h1 := mono dThr sThr init.1 init.2.1 init.2.2 k
      have h2 := ih (update_reps dThr sThr init.1 init.2.1 init.2.2 k)
      calc init.2.1 ≤ _ := h1
        _ ≤ _ := h2
  · intro acosD m st lms ts
    exact mono 125 160 st.repState st.repCount st.kneeHist
      ((knee_angles_deg acosD (normalize_to_body_frame lms).1).2.2)

/-- C5 witness: a concrete down-to-standing transition increments the
counter from 3 to 4. -/
theorem c5_rep_count_monotone_witness :
    (update_reps 125 160 RepState.down 3 [] 170).2.1 = 3 + 1 ∧
      (update_reps 125 160 RepState.down 3 [] 170).1 = RepState.standing := by
  have h := c5_rep_count_monotone.2.1 125 160 RepState.down 3 [] 170
    (of_decide_eq_true (by with_unfolding_all rfl))
  exact ⟨h.1, h.2.2.1⟩

/-- C6: every entry of robust_std is at least eps = 1e-6 (hence nonzero):
a dimension whose raw standard deviation is below eps is replaced by 1
and every other dimension keeps its raw standard deviation; consequently
a trained model never stores a zero feat_std entry. -/
theorem c6_feat_std_floor :
    (∀ a : List (List ℚ), ∀ v ∈ robust_std a, (1e-6 : ℚ) ≤ v ∧ 0 < v) ∧
    (∀ col : List ℚ,
      (npStd col < 1e-6 → robustStdCol col = 1) ∧
      ((1e-6 : ℚ) ≤ npStd col → robustStdCol col = npStd col)) ∧
    (∀ (acosD : ℚ → ℚ) (cl : List Nat) (frames : List Frame) (m : RefModel),
      train acosD cl frames = .ok m → ∀ v ∈ m.feat_std, (1e-6 : ℚ) ≤ v ∧ 0 < v) := by
  have key : ∀ a : List (List ℚ), ∀ v ∈ robust_std a, (1e-6 : ℚ) ≤ v ∧ 0 < v := by
    intro a v hv
    rcases List.mem_map.mp hv with ⟨col, _, rfl⟩
    simp only [robustStdCol]
    split
    · refine ⟨by norm_num, by norm_num⟩
    · next hge =>
      have h1 : (1e-6 : ℚ) ≤ npStd col := not_lt.mp hge
      exact ⟨h1, lt_of_lt_of_le (by norm_num) h1⟩
  refine ⟨key, ?_, ?_⟩
  · intro col
    constructor
    · intro h
      unfold robustStdCol
      rw [if_pos h]
    · intro h
      unfold robustStdCol
      rw [if_neg (not_lt.mpr h)]
  · intro acosD cl frames m h
    simp only [train] at h
    split at h
    · simp at h
    · split at h
      · simp at h
      · rw [Except.ok.injEq] at h
        subst h
        intro v hv
        exact key _ v hv

/-- C6 witness: a degenerate column (raw std 0) produces the entry 1,
which satisfies the floor. -/
theorem c6_feat_std_floor_witness :
    (1 : ℚ) ∈ robust_std [[0], [0]] ∧ ((1e-6 : ℚ) ≤ 1 ∧ (0 : ℚ) < 1) :=
  ⟨of_decide_eq_true (by with_unfolding_all rfl),
   c6_feat_std_floor.1 [[0], [0]] 1 (of_decide_eq_true (by with_unfolding_all rfl))⟩

/-- C9 counterexample: the PTCoachEngine quality ring has capacity 15,
not 12; pushing 13 values retains all 13, which a capacity-12 ring
could not. -/
theorem c9_capacity_counterexample :
    ptQualityHistMaxlen ≠ 12 ∧
    (((List.range 13).map fun i => (i : ℚ)).foldl
        (dequePush ptQualityHistMaxlen) []).length = 13 ∧
    ¬((((List.range 13).map fun i => (i : ℚ)).foldl
        (dequePush ptQualityHistMaxlen) []).length ≤ 12) :=
  ⟨by decide, by with_unfolding_all rfl,
   of_decide_eq_true (by with_unfolding_all rfl)⟩

/-- C9 amended: the quality ring capacity is 12 in CoachV2Engine but 15
in PTCoachEngine; in both engines quality.score is the mean of the last
8 ring entries (the mean of all entries when fewer than 8 are present),
as infer reports through moving_average with window 8. -/
theorem c9_quality_ring_amended :
    v2QualityHistMaxlen = 12 ∧ ptQualityHistMaxlen = 15 ∧
    (∀ (hist : List ℚ) (q : ℚ),
      (dequePush v2QualityHistMaxlen hist q).length ≤ 12 ∧
      (dequePush ptQualityHistMaxlen hist q).length ≤ 15) ∧
    (∀ l : List ℚ, l ≠ [] →
      moving_average l 8 =
        (l.drop (l.length - 8)).sum / ((l.drop (l.length - 8)).length : ℚ)) ∧
    (∀ (acosD : ℚ → ℚ) (m : PTModel) (st : PTState) (lms : Frame) (ts : Int),
      (infer acosD m st lms ts).1.quality.score =
        round3 (moving_average
          (dequePush ptQualityHistMaxlen st.qualityHist
            (quality_from_distance m.p50 m.p99 (inferMatch m lms).2)) 8)) := by
  refine ⟨rfl, rfl, ?_, ?_, ?_⟩
  · intro hist q
    unfold dequePush v2QualityHistMaxlen ptQualityHistMaxlen
    constructor <;> (simp only [List.length_drop, List.length_append, List.length_cons]; omega)
  · intro l hl
    unfold moving_average
    rw [if_neg hl, if_neg (by norm_num)]
  · intro acosD m st lms ts
    rfl

/-- C9 amended witness: the mean-of-last-8 identity on a concrete
nonempty ring. -/
theorem c9_quality_ring_amended_witness :
    moving_average [(1 : ℚ)] 8 =
      ([(1 : ℚ)].drop ([(1 : ℚ)].length - 8)).sum /
        (([(1 : ℚ)].drop ([(1 : ℚ)].length - 8)).length : ℚ) :=
  c9_quality_ring_amended.2.2.2.1 [(1 : ℚ)] (by simp)

theorem newActiveFlag_gt_clear {w : Bool} {dx dy tx ty : ℚ}
    (h : newActiveFlag w dx dy tx ty = true) :
    1.35 < max (|dx| / max tx 1e-6) (|dy| / max ty 1e-6) := by
  unfold newActiveFlag at h
  cases w
  · simp only [Bool.false_and, Bool.not_false, Bool.true_and, Bool.false_or,
      Bool.and_eq_true, Bool.or_eq_true, decide_eq_true_eq, ge_iff_le] at h
    calc (1.35 : ℚ) < 2.5 := by norm_num
      _ ≤ _ := h.1
  · simp only [Bool.true_and, Bool.not_true, Bool.false_and, Bool.or_false,
      Bool.not_eq_true', Bool.or_eq_false_iff, Bool.and_eq_false_iff,
      decide_eq_false_iff_not, not_le] at h
    exact h.1

theorem severity_from_ratio_of_gt {r : ℚ} (h : 1.35 < r) :
    severity_from_ratio r = .medium ∨ severity_from_ratio r = .high := by
  unfold severity_from_ratio
  split_ifs with h1 h2
  · exact .inr rfl
  · exact .inl rfl
  · exact absurd (le_of_lt h) h2

theorem processCorrections_severity (m : PTModel) (norm ref : List NormPt) :
    ∀ (l : List Nat) (acc : List (String × Bool) × List Correction),
      (∀ c ∈ acc.2, c.severity = .medium ∨ c.severity = .high) →
      ∀ c ∈ (l.foldl (correctionStep m norm ref) acc).2,
        c.severity = .medium ∨ c.severity = .high := by
  intro l
  induction l with
  | nil => exact fun acc hacc c hc => hacc c hc
  | cons idx t ih =>
    intro acc hacc
    rw [List.foldl_cons]
    refine ih _ ?_
    intro c
    simp only [correctionStep]
    split
    · next hact =>
      intro hc
      rcases List.mem_append.mp hc with h1 | h2
      · exact hacc c h1
      · have hc2 := List.mem_singleton.mp h2
        rw [hc2]
        exact severity_from_ratio_of_gt (newActiveFlag_gt_clear hact)
    · exact fun hc => hacc c hc

/-- C10: every correction emitted by the tolerance-policy correction
loop of PTCoachEngine.infer has severity medium or high, never low;
at payload level the only possible low-severity entry is the appended
POSE_NOT_CLEAR marker. -/
theorem c10_active_corrections_not_low :
    (∀ (m : PTModel) (active0 : List (String × Bool)) (norm ref : List NormPt),
      ∀ c ∈ (processCorrections m active0 norm ref).2,
        c.severity = .medium ∨ c.severity = .high) ∧
    (∀ (acosD : ℚ → ℚ) (m : PTModel) (st : PTState) (lms : Frame) (ts : Int),
      ∀ c ∈ (infer acosD m st lms ts).1.corrections,
        c.id = "POSE_NOT_CLEAR" ∨ c.severity = .medium ∨ c.severity = .high) := by
  have base : ∀ (m : PTModel) (active0 : List (String × Bool)) (norm ref : List NormPt),
      ∀ c ∈ (processCorrections m active0 norm ref).2,
        c.severity = .medium ∨ c.severity = .high :=
    fun m a n r =>
      processCorrections_severity m n r m.correction_landmarks (a, []) (by simp)
  refine ⟨base, ?_⟩
  intro acosD m st lms ts c hc
  simp only [infer] at hc
  split at hc
  · rcases List.mem_append.mp hc with h1 | h2
    · exact .inr (base m st.activeCorrections _ _ c (List.mem_mergeSort.mp h1))
    · exact .inl (by rw [List.mem_singleton.mp h2]; rfl)
  · exact .inr (base m st.activeCorrections _ _ c (List.mem_mergeSort.mp hc))

/-- C10 witness: a concrete frame displaced one hip width along x emits
corrections, and the first one is medium or high. -/
theorem c10_active_corrections_not_low_witness :
    ((processCorrections modelZero [] normShifted normZero).2.headD
        poseNotClearCorrection).severity = Severity.medium ∨
      ((processCorrections modelZero [] normShifted normZero).2.headD
        poseNotClearCorrection).severity = Severity.high :=
  c10_active_corrections_not_low.1 modelZero [] normShifted normZero _
    (of_decide_eq_true (by with_unfolding_all rfl))

/-- C7 amended: PTCoachEngine.infer never emits NO_POSE.  On a frame
whose landmarks all have visibility 0 the tracking confidence is 0
(below the 0.35 gate), and the payload carries exactly one low-severity
POSE_NOT_CLEAR marker precisely when the hysteresis correction loop -
which never consults visibility - emitted no corrections; when the loop
does emit corrections, they are reported sorted and unchanged and no
marker is appended. -/
theorem c7_pose_not_clear_marker (acosD : ℚ → ℚ) (m : PTModel) (st : PTState) (lms : Frame)
    (ts : Int) (hvis : ∀ lm ∈ lms, lm.vis = 0) :
    visibilityOf lms = 0 ∧
      poseNotClearCorrection.id = "POSE_NOT_CLEAR" ∧
      poseNotClearCorrection.severity = Severity.low ∧
      ((inferCorrections m st.activeCorrections lms).2 = [] ↔
        (infer acosD m st lms ts).1.corrections = [poseNotClearCorrection]) ∧
      ((inferCorrections m st.activeCorrections lms).2 ≠ [] →
        (infer acosD m st lms ts).1.corrections =
            (inferCorrections m st.activeCorrections lms).2.mergeSort
              (fun a b => decide (b.errRatio ≤ a.errRatio)) ∧
          poseNotClearCorrection ∉ (infer acosD m st lms ts).1.corrections) := by
  have hall : ∀ i : Nat, (lmGet lms i).vis = 0 := by
    intro i
    unfold lmGet
    by_cases hi : i < lms.length
    · rw [List.getD_eq_getElem _ _ hi]
      exact hvis _ (List.getElem_mem hi)
    · rw [List.getD_eq_default _ _ (le_of_not_lt hi)]
  have hv : visibilityOf lms = 0 := by
    unfold visibilityOf
    rw [List.sum_eq_zero, zero_div]
    intro x hx
    rcases List.mem_map.mp hx with ⟨i, _, rfl⟩
    exact hall i
  have hcond : visibilityOf lms < 0.35 := by
    rw [hv]
    norm_num
  have hsev : ∀ c ∈ (inferCorrections m st.activeCorrections lms).2,
      c.severity = .medium ∨ c.severity = .high := by
    simp only [inferCorrections, processCorrections]
    exact processCorrections_severity m _ _ m.correction_landmarks
      (st.activeCorrections, []) (by intro c hc; exact absurd hc (List.not_mem_nil c))
  have hnotmem : poseNotClearCorrection ∉
      ((inferCorrections m st.activeCorrections lms).2.mergeSort
        fun a b => decide (b.errRatio ≤ a.errRatio)) := by
    intro hmem
    have hm2 := List.mem_mergeSort.mp hmem
    rcases hsev _ hm2 with h | h <;> simp [poseNotClearCorrection] at h
  by_cases hc : (inferCorrections m st.activeCorrections lms).2 = []
  · have hsorted : ((inferCorrections m st.activeCorrections lms).2.mergeSort
        fun a b => decide (b.errRatio ≤ a.errRatio)) = [] := by
      rw [hc]
      exact List.mergeSort_nil
    have heq : (infer acosD m st lms ts).1.corrections = [poseNotClearCorrection] := by
      simp only [infer]
      rw [hsorted, if_pos ⟨hcond, rfl⟩]
      rfl
    exact ⟨hv, rfl, rfl, ⟨fun _ => heq, fun _ => hc⟩, fun hne => absurd hc hne⟩
  · have hsne : ((inferCorrections m st.activeCorrections lms).2.mergeSort
        fun a b => decide (b.errRatio ≤ a.errRatio)) ≠ [] := by
      intro h0
      apply hc
      have hl := congrArg List.length h0
      rw [List.length_mergeSort] at hl
      exact List.length_eq_zero.mp hl
    have heq : (infer acosD m st lms ts).1.corrections =
        (inferCorrections m st.activeCorrections lms).2.mergeSort
          (fun a b => decide (b.errRatio ≤ a.errRatio)) := by
      simp only [infer]
      rw [if_neg (fun h => hsne h.2)]
    refine ⟨hv, rfl, rfl, ⟨fun h => absurd h hc, fun h => ?_⟩, fun _ => ⟨heq, ?_⟩⟩
    · exfalso
      apply hnotmem
      rw [heq] at h
      rw [h]
      exact List.mem_singleton_self _
    · rw [heq]
      exact hnotmem

/-- C7 witness: the all-invisible all-zero frame yields exactly the
POSE_NOT_CLEAR marker; the all-invisible frame with a displaced knee
makes the loop emit a correction, and then no marker appears in the
payload. -/
theorem c7_pose_not_clear_marker_witness :
    (infer acosZero modelZero stateInit frameZeroVis 0).1.corrections =
        [poseNotClearCorrection] ∧
      (inferCorrections modelZero stateInit.activeCorrections frameShiftVis0).2 ≠ [] ∧
      poseNotClearCorrection ∉
        (infer acosZero modelZero stateInit frameShiftVis0 0).1.corrections := by
  have hne : (inferCorrections modelZero stateInit.activeCorrections frameShiftVis0).2 ≠ [] :=
    of_decide_eq_true (by with_unfolding_all rfl)
  refine ⟨?_, hne, ?_⟩
  · exact (c7_pose_not_clear_marker acosZero modelZero stateInit frameZeroVis 0
        (of_decide_eq_true (by with_unfolding_all rfl))).2.2.2.1.mp
      (of_decide_eq_true (by with_unfolding_all rfl))
  · exact ((c7_pose_not_clear_marker acosZero modelZero stateInit frameShiftVis0 0
        (of_decide_eq_true (by with_unfolding_all rfl))).2.2.2.2 hne).2

/-- C7 counterexample: on a frame whose 33 landmarks all have
visibility 0, the engine payload has exactly one correction and its id
is POSE_NOT_CLEAR, not NO_POSE as claimed. -/
theorem c7_no_pose_counterexample :
    frameZeroVis.length = 33 ∧
      (∀ lm ∈ frameZeroVis, lm.vis = 0) ∧
      (infer acosZero modelZero stateInit frameZeroVis 0).1.corrections =
        [poseNotClearCorrection] ∧
      poseNotClearCorrection.id = "POSE_NOT_CLEAR" ∧
      poseNotClearCorrection.id ≠ "NO_POSE" :=
  ⟨by with_unfolding_all rfl,
   of_decide_eq_true (by with_unfolding_all rfl),
   by with_unfolding_all rfl, rfl, by decide⟩

/-- C8 amended: normalize_to_body_frame has no failure path at all: it
returns normally on every input (hip widths below eps are floored to
1e-4), even when the inputs or outputs are non-finite; no DegeneratePose
error exists in the code. -/
theorem c8_normalizer_never_fails :
    ∀ lms : FrameF, (normalize_to_body_frameF lms).isOk = true :=
  fun _ => rfl

/-- C8 counterexample: a frame with coincident hips (raw hip width 0,
below eps) and a non-finite z coordinate, so the floored width yields a
non-finite normalized result - yet the normalizer returns normally
instead of failing with DegeneratePose. -/
theorem c8_degenerate_pose_counterexample :
    oLt (hipWidthRawF frameC8) 1e-4 = true ∧
      (normalize_to_body_frameF frameC8).isOk = true ∧
      (∀ e : NormError, normalize_to_body_frameF frameC8 ≠ Except.error e) ∧
      (((normalize_to_body_frameF frameC8).toOption.getD []).getD 0
          ⟨some 0, some 0, some 0⟩).zs = none :=
  ⟨by with_unfolding_all rfl, rfl,
   fun e h => by
     have hok : (normalize_to_body_frameF frameC8).isOk = true := rfl
     rw [h] at hok
     simp [Except.isOk, Except.toBool] at hok,
   by with_unfolding_all rfl⟩

theorem convolveFull_length (a v : List ℚ) :
    (convolveFull a v).length = a.length + v.length - 1 := by
  simp [convolveFull]

theorem convolveSame_length (a v : List ℚ) (ha : a ≠ []) (hv : v ≠ []) :
    (convolveSame a v).length = max a.length v.length := by
  have ha1 : 1 ≤ a.length := List.length_pos.mpr ha
  have hv1 : 1 ≤ v.length := List.length_pos.mpr hv
  simp only [convolveSame, List.length_take, List.length_drop, convolveFull_length]
  omega

theorem smooth1d_length (arr : List ℚ) (w : Nat) (ha : arr ≠ []) (hw : 1 ≤ w) :
    (smooth1d arr w).length = max arr.length w := by
  have h1 : (List.replicate w ((1 : ℚ) / (w : ℚ))) ≠ [] := by
    simp only [ne_eq, List.replicate_eq_nil_iff]
    omega
  have h2 := convolveSame_length arr (List.replicate w ((1 : ℚ) / (w : ℚ))) ha h1
  simpa [smooth1d] using h2

theorem npBroadcastSub_ok (a b : List ℚ) (h : a.length = b.length ∨ a.length = 1) :
    ∃ r, npBroadcastSub a b = .ok r := by
  unfold npBroadcastSub
  rcases h with h | h
  · rw [if_pos h]
    exact ⟨_, rfl⟩
  · by_cases he : a.length = b.length
    · rw [if_pos he]
      exact ⟨_, rfl⟩
    · rw [if_neg he, if_pos h]
      exact ⟨_, rfl⟩

theorem tolForLandmark_ok (refNorm : List (List NormPt)) (idx : Nat)
    (h0 : refNorm ≠ []) (h2 : refNorm.length ≠ 2) :
    ∃ t, tolForLandmark refNorm (max 3 (min 7 (refNorm.length / 30))) idx = .ok t := by
  have hN0 : refNorm.length ≠ 0 := by
    simpa [List.length_eq_zero] using h0
  have hcond : ∀ f : List NormPt → ℚ,
      (refNorm.map f).length =
        (smooth1d (refNorm.map f) (max 3 (min 7 (refNorm.length / 30)))).length ∨
      (refNorm.map f).length = 1 := by
    intro f
    have hne : refNorm.map f ≠ [] := by
      simpa [List.map_eq_nil_iff] using h0
    rw [smooth1d_length _ _ hne (by omega), List.length_map]
    omega
  rcases npBroadcastSub_ok (refNorm.map fun row => (row.getD idx ⟨0, 0, 0⟩).xb)
      (smooth1d (refNorm.map fun row => (row.getD idx ⟨0, 0, 0⟩).xb)
        (max 3 (min 7 (refNorm.length / 30)))) (hcond _) with ⟨r1, hr1⟩
  rcases npBroadcastSub_ok (refNorm.map fun row => (row.getD idx ⟨0, 0, 0⟩).yb)
      (smooth1d (refNorm.map fun row => (row.getD idx ⟨0, 0, 0⟩).yb)
        (max 3 (min 7 (refNorm.length / 30)))) (hcond _) with ⟨r2, hr2⟩
  refine ⟨(idx, ⟨max 0.05 (percentile (r1.map abs) 90 * 3 + 0.03),
    max 0.06 (percentile (r2.map abs) 90 * 3 + 0.04), sideOf idx, partOf idx⟩), ?_⟩
  simp only [tolForLandmark]
  rw [hr1, hr2]
  rfl

theorem mapM_tol_ok {f : Nat → Except TrainError (Nat × TolEntry)} (l : List Nat)
    (h : ∀ x ∈ l, ∃ y, f x = .ok y) : ∃ ys, l.mapM f = .ok ys := by
  induction l with
  | nil => exact ⟨[], rfl⟩
  | cons x t ih =>
    rcases h x (List.mem_cons_self x t) with ⟨y, hy⟩
    rcases ih (fun z hz => h z (List.mem_cons_of_mem x hz)) with ⟨ys, hys⟩
    refine ⟨y :: ys, ?_⟩
    rw [List.mapM_cons, hy, hys]
    rfl

/-- C3 amended: the trainer performs no minimum-frame-count check and
never raises InsufficientReferenceFrames; it aborts only on an empty
corpus (np.stack of an empty list) or on a corpus of exactly 2 frames
(shape mismatch between the length-2 trajectory and its length-3
smoothing in the tolerance residual); every other corpus, including
every corpus with 3 <= N < 10, trains to a model artifact. -/
theorem c3_trainer_no_min_check (acosD : ℚ → ℚ) (cl : List Nat) (frames : List Frame)
    (h0 : frames ≠ []) (h2 : frames.length ≠ 2) :
    (train acosD cl frames).isOk = true := by
  have hmap : ∀ x ∈ cl, ∃ y,
      tolForLandmark (frames.map fun f => (normalize_to_body_frame f).1)
        (max 3 (min 7 ((frames.map fun f => (normalize_to_body_frame f).1).length / 30)))
        x = .ok y := by
    intro x _
    have e1 : (frames.map fun f => (normalize_to_body_frame f).1) ≠ [] := by
      simpa [List.map_eq_nil_iff] using h0
    have e2 : (frames.map fun f => (normalize_to_body_frame f).1).length ≠ 2 := by
      simpa using h2
    have := tolForLandmark_ok (frames.map fun f => (normalize_to_body_frame f).1) x e1 e2
    simpa using this
  rcases mapM_tol_ok cl hmap with ⟨ys, hys⟩
  simp only [train]
  rw [if_neg (by simpa using h0)]
  rw [hys]
  rfl

/-- C3 amended witness: a concrete 3-frame corpus trains successfully. -/
theorem c3_trainer_no_min_check_witness :
    (train acosZero CORRECTION_LANDMARKS refCorpus3).isOk = true :=
  c3_trainer_no_min_check acosZero CORRECTION_LANDMARKS refCorpus3
    (of_decide_eq_true (by with_unfolding_all rfl))
    (of_decide_eq_true (by with_unfolding_all rfl))

/-- C3 counterexample: a reference corpus with N = 3 < 10 frames trains
to a model artifact instead of failing with InsufficientReferenceFrames. -/
theorem c3_small_corpus_counterexample :
    refCorpus3.length = 3 ∧ refCorpus3.length < 10 ∧
      (train acosZero CORRECTION_LANDMARKS refCorpus3).isOk = true ∧
      train acosZero CORRECTION_LANDMARKS refCorpus3 ≠
        Except.error TrainError.insufficientReferenceFrames := by
  refine ⟨rfl, by decide, by with_unfolding_all rfl, fun h => ?_⟩
  have hok : (train acosZero CORRECTION_LANDMARKS refCorpus3).isOk = true := by
    with_unfolding_all rfl
  rw [h] at hok
  simp [Except.isOk, Except.toBool] at hok

theorem mat2_mul_assoc (A B C : Mat2) : (A.mul B).mul C = A.mul (B.mul C) := by
  cases A
  cases B
  cases C
  simp only [Mat2.mul, Mat2.mk.injEq]
  refine ⟨by ring, by ring, by ring, by ring⟩

theorem mat2_transpose_mul (A B : Mat2) :
    (A.mul B).transpose = B.transpose.mul A.transpose := by
  cases A
  cases B
  simp only [Mat2.mul, Mat2.transpose, Mat2.mk.injEq]
  refine ⟨by ring, by ring, by ring, by ring⟩

theorem mat2_det_mul (A B : Mat2) : (A.mul B).det = A.det * B.det := by
  cases A
  cases B
  simp only [Mat2.mul, Mat2.det]
  ring

theorem mat2_mul_id (A : Mat2) : A.mul Mat2.id2 = A := by
  cases A
  simp [Mat2.mul, Mat2.id2]

theorem mat2_id_mul (A : Mat2) : Mat2.id2.mul A = A := by
  cases A
  simp [Mat2.mul, Mat2.id2]

theorem mat2_mul_diag (B : Mat2) (x y : ℚ) :
    B.mul (Mat2.diag x y) = ⟨B.a * x, B.b * y, B.c * x, B.d * y⟩ := by
  cases B
  simp [Mat2.mul, Mat2.diag]

theorem mat2_trace_mul_comm (A B : Mat2) :
    (A.mul B).a + (A.mul B).d = (B.mul A).a + (B.mul A).d := by
  cases A
  cases B
  simp only [Mat2.mul]
  ring

theorem mat2_conj_entry_a (B M : Mat2) :
    ((B.mul M).mul B.transpose).a =
      B.a * B.a * M.a + B.a * B.b * (M.b + M.c) + B.b * B.b * M.d := by
  cases B
  cases M
  simp only [Mat2.mul, Mat2.transpose]
  ring

theorem mat2_symm_of {M : Mat2} (h : M.b = M.c) : M.transpose = M := by
  cases M
  simp only [Mat2.transpose, Mat2.mk.injEq]
  simp only [Mat2.b, Mat2.c] at h
  exact ⟨trivial, h.symm, h, trivial⟩

theorem mat2_orthog_flip {A : Mat2} (h : A.orthog) : A.mul A.transpose = Mat2.id2 := by
  cases A with
  | mk a b c d =>
    unfold Mat2.orthog at h
    simp only [Mat2.mul, Mat2.transpose, Mat2.id2, Mat2.mk.injEq] at h ⊢
    obtain ⟨h1, h2, h3, h4⟩ := h
    have he : (a * d - b * c) ^ 2 = 1 := by
      linear_combination (b * b + d * d) * h1 + h4 - (a * b + c * d) * h2
    have ha2 : d * (a * d - b * c) = a := by
      linear_combination a * h4 - b * h2
    have hc2 : b * (a * d - b * c) = -c := by
      linear_combination d * h2 - c * h4
    refine ⟨?_, ?_, ?_, ?_⟩
    · linear_combination (-(a + d * (a * d - b * c))) * ha2 + d ^ 2 * he + h4
    · linear_combination (-c) * ha2 + (d * (a * d - b * c)) * hc2 + (-(b * d)) * he
    · linear_combination (-c) * ha2 + (d * (a * d - b * c)) * hc2 + (-(b * d)) * he
    · linear_combination (c - b * (a * d - b * c)) * hc2 + b ^ 2 * he + h4

theorem crossCov_symm (A : List (ℚ × ℚ)) : (crossCov A A).b = (crossCov A A).c := by
  simp only [crossCov, List.zipWith_same]
  exact congrArg List.sum (List.map_congr_left fun p _ => mul_comm _ _)

theorem crossCov_trace (A : List (ℚ × ℚ)) :
    (crossCov A A).a + (crossCov A A).d = frobSq A := by
  simp only [crossCov, frobSq, List.zipWith_same]
  induction A with
  | nil => simp
  | cons p t ih =>
    simp only [List.map_cons, List.sum_cons]
    linear_combination ih

theorem frobSq_nonneg (A : List (ℚ × ℚ)) : 0 ≤ frobSq A := by
  refine List.sum_nonneg fun v hv => ?_
  rcases List.mem_map.mp hv with ⟨p, _, rfl⟩
  positivity

theorem quadform_nonneg (A : List (ℚ × ℚ)) (x y : ℚ) :
    0 ≤ x * x * (crossCov A A).a + x * y * ((crossCov A A).b + (crossCov A A).c) +
      y * y * (crossCov A A).d := by
  have hexp : x * x * (crossCov A A).a + x * y * ((crossCov A A).b + (crossCov A A).c) +
      y * y * (crossCov A A).d = (A.map fun p => (x * p.1 + y * p.2) ^ 2).sum := by
    simp only [crossCov, List.zipWith_same]
    induction A with
    | nil => simp
    | cons p t ih =>
      simp only [List.map_cons, List.sum_cons]
      linear_combination ih
  rw [hexp]
  refine List.sum_nonneg fun v hv => ?_
  rcases List.mem_map.mp hv with ⟨p, _, rfl⟩
  positivity

theorem mat2_transpose_transpose (A : Mat2) : A.transpose.transpose = A := rfl

theorem mat2_diag_mul (x y : ℚ) (B : Mat2) :
    (Mat2.diag x y).mul B = ⟨x * B.a, x * B.b, y * B.c, y * B.d⟩ := by
  cases B
  simp [Mat2.mul, Mat2.diag]

theorem mat2_conj_cancel {V X : Mat2} (hVo : V.orthog) :
    (V.transpose.mul ((V.mul X).mul V.transpose)).mul V = X := by
  have hVo' : V.transpose.mul V = Mat2.id2 := hVo
  rw [← mat2_mul_assoc V.transpose (V.mul X) V.transpose]
  rw [mat2_mul_assoc (V.transpose.mul (V.mul X)) V.transpose V]
  rw [hVo', mat2_mul_id]
  rw [← mat2_mul_assoc V.transpose V X, hVo', mat2_id_mul]

theorem svd_gram_rotation_id (A : List (ℚ × ℚ)) (sv : SVD2)
    (hsvd : IsSVDOf (crossCov A A) sv) (hA : frobSq A ≠ 0) :
    (sv.U.mul (Mat2.diag 1 (sv.U.mul sv.Vt).det)).mul sv.Vt = Mat2.id2 := by
  obtain ⟨hU, hV, h12, h2s, hM⟩ := hsvd
  have hU2 : sv.U.transpose.mul sv.U = Mat2.id2 := hU
  have hV2 : sv.Vt.transpose.mul sv.Vt = Mat2.id2 := hV
  have hU' : sv.U.mul sv.U.transpose = Mat2.id2 := mat2_orthog_flip hU
  have hV' : sv.Vt.mul sv.Vt.transpose = Mat2.id2 := mat2_orthog_flip hV
  have hMsym : (crossCov A A).transpose = crossCov A A := mat2_symm_of (crossCov_symm A)
  have hQS : (sv.Vt.mul (crossCov A A)).mul sv.Vt.transpose
      = (sv.Vt.mul sv.U).mul (Mat2.diag sv.s1 sv.s2) := by
    rw [hM]
    rw [← mat2_mul_assoc sv.Vt (sv.U.mul (Mat2.diag sv.s1 sv.s2)) sv.Vt]
    rw [mat2_mul_assoc (sv.Vt.mul (sv.U.mul (Mat2.diag sv.s1 sv.s2))) sv.Vt sv.Vt.transpose]
    rw [hV', mat2_mul_id]
    rw [← mat2_mul_assoc]
  have hSQ : (sv.U.transpose.mul (crossCov A A)).mul sv.U
      = (Mat2.diag sv.s1 sv.s2).mul (sv.Vt.mul sv.U) := by
    rw [hM]
    rw [← mat2_mul_assoc sv.U.transpose (sv.U.mul (Mat2.diag sv.s1 sv.s2)) sv.Vt]
    rw [← mat2_mul_assoc sv.U.transpose sv.U (Mat2.diag sv.s1 sv.s2)]
    rw [hU2, mat2_id_mul]
    rw [mat2_mul_assoc]
  have hQSsym : ((sv.Vt.mul sv.U).mul (Mat2.diag sv.s1 sv.s2)).transpose
      = (sv.Vt.mul sv.U).mul (Mat2.diag sv.s1 sv.s2) := by
    rw [← hQS, mat2_transpose_mul, mat2_transpose_mul, mat2_transpose_transpose, hMsym]
    rw [← mat2_mul_assoc]
  have hSQsym : ((Mat2.diag sv.s1 sv.s2).mul (sv.Vt.mul sv.U)).transpose
      = (Mat2.diag sv.s1 sv.s2).mul (sv.Vt.mul sv.U) := by
    rw [← hSQ, mat2_transpose_mul, mat2_transpose_mul, mat2_transpose_transpose, hMsym]
    rw [← mat2_mul_assoc]
  have hQSval := mat2_mul_diag (sv.Vt.mul sv.U) sv.s1 sv.s2
  have hSQval := mat2_diag_mul sv.s1 sv.s2 (sv.Vt.mul sv.U)
  have hE1 : (sv.Vt.mul sv.U).c * sv.s1 = (sv.Vt.mul sv.U).b * sv.s2 := by
    have h := congrArg Mat2.b hQSsym
    rw [hQSval] at h
    simpa [Mat2.transpose] using h
  have hE2 : sv.s2 * (sv.Vt.mul sv.U).c = sv.s1 * (sv.Vt.mul sv.U).b := by
    have h := congrArg Mat2.b hSQsym
    rw [hSQval] at h
    simpa [Mat2.transpose] using h
  have hQorth : (sv.Vt.mul sv.U).transpose.mul (sv.Vt.mul sv.U) = Mat2.id2 := by
    rw [mat2_transpose_mul]
    rw [mat2_mul_assoc]
    rw [← mat2_mul_assoc sv.Vt.transpose sv.Vt sv.U]
    rw [hV2, mat2_id_mul]
    exact hU2
  have ho1 : (sv.Vt.mul sv.U).a * (sv.Vt.mul sv.U).a +
      (sv.Vt.mul sv.U).c * (sv.Vt.mul sv.U).c = 1 := by
    have h := congrArg Mat2.a hQorth
    simpa [Mat2.mul, Mat2.transpose, Mat2.id2] using h
  have ho2 : (sv.Vt.mul sv.U).a * (sv.Vt.mul sv.U).b +
      (sv.Vt.mul sv.U).c * (sv.Vt.mul sv.U).d = 0 := by
    have h := congrArg Mat2.b hQorth
    simpa [Mat2.mul, Mat2.transpose, Mat2.id2] using h
  have ho4 : (sv.Vt.mul sv.U).b * (sv.Vt.mul sv.U).b +
      (sv.Vt.mul sv.U).d * (sv.Vt.mul sv.U).d = 1 := by
    have h := congrArg Mat2.d hQorth
    simpa [Mat2.mul, Mat2.transpose, Mat2.id2] using h
  have hD1 : 0 ≤ (sv.Vt.mul sv.U).a * sv.s1 := by
    have h := congrArg Mat2.a hQS
    rw [mat2_conj_entry_a, hQSval] at h
    simp only [] at h
    rw [← h]
    exact quadform_nonneg A sv.Vt.a sv.Vt.b
  have htr : (sv.Vt.mul sv.U).a * sv.s1 + (sv.Vt.mul sv.U).d * sv.s2 = frobSq A := by
    have h4 : sv.Vt.transpose.mul (sv.Vt.mul (crossCov A A)) = crossCov A A := by
      rw [← mat2_mul_assoc, hV2, mat2_id_mul]
    have h5 := congrArg (fun X : Mat2 => X.a + X.d) hQS
    have h6 := mat2_trace_mul_comm (sv.Vt.mul (crossCov A A)) sv.Vt.transpose
    rw [h4] at h6
    rw [hQSval] at h5
    simp only [] at h5
    rw [← h5, h6]
    exact crossCov_trace A
  have htrpos : 0 < frobSq A := lt_of_le_of_ne (frobSq_nonneg A) (Ne.symm hA)
  have hs1 : 0 < sv.s1 := by
    rcases lt_or_le 0 sv.s1 with h | h
    · exact h
    · exfalso
      have hz1 : sv.s1 = 0 := le_antisymm h (le_trans h2s h12)
      have hz2 : sv.s2 = 0 := le_antisymm (hz1 ▸ h12) h2s
      rw [hz1, hz2] at htr
      simp at htr
      linarith [htrpos, htr]
  have hQa : (sv.Vt.mul sv.U).a = 1 ∧ (sv.Vt.mul sv.U).b = 0 ∧ (sv.Vt.mul sv.U).c = 0 ∧
      (sv.Vt.mul sv.U).d * (sv.Vt.mul sv.U).d = 1 := by
    have hbc : (sv.Vt.mul sv.U).b = 0 ∧ (sv.Vt.mul sv.U).c = 0 := by
      by_cases hss : sv.s1 = sv.s2
      · have hs2pos : 0 < sv.s2 := hss ▸ hs1
        have hbq : (sv.Vt.mul sv.U).c = (sv.Vt.mul sv.U).b := by
          have h := hE2
          rw [← hss] at h
          exact mul_left_cancel₀ (ne_of_gt hs1) h
        have hsum : 0 < (sv.Vt.mul sv.U).a + (sv.Vt.mul sv.U).d := by
          by_contra hcon
          push_neg at hcon
          rw [← hss] at htr
          nlinarith [htr, htrpos, hs1, hcon]
        have hb0 : (sv.Vt.mul sv.U).b = 0 := by
          have h7 : (sv.Vt.mul sv.U).b * ((sv.Vt.mul sv.U).a + (sv.Vt.mul sv.U).d) = 0 := by
            linear_combination ho2 - (sv.Vt.mul sv.U).d * hbq
          rcases mul_eq_zero.mp h7 with h | h
          · exact h
          · exact absurd h (ne_of_gt hsum)
        exact ⟨hb0, hbq.trans hb0⟩
      · have hlt : sv.s2 < sv.s1 := lt_of_le_of_ne h12 (fun h => hss h.symm)
        have h6 : (sv.s1 * sv.s1 - sv.s2 * sv.s2) * (sv.Vt.mul sv.U).b = 0 := by
          linear_combination sv.s2 * hE1 - sv.s1 * hE2
        have h7 : 0 < sv.s1 * sv.s1 - sv.s2 * sv.s2 := by nlinarith [hlt, h2s]
        have hb0 : (sv.Vt.mul sv.U).b = 0 :=
          (mul_eq_zero.mp h6).resolve_left (ne_of_gt h7)
        have hc0 : (sv.Vt.mul sv.U).c = 0 := by
          have h := hE1
          rw [hb0, zero_mul] at h
          rcases mul_eq_zero.mp h with h | h
          · exact h
          · exact absurd h (ne_of_gt hs1)
        exact ⟨hb0, hc0⟩
    obtain ⟨hb0, hc0⟩ := hbc
    have hq1sq : (sv.Vt.mul sv.U).a * (sv.Vt.mul sv.U).a = 1 := by
      rw [hc0] at ho1
      simpa using ho1
    have hq1nn : 0 ≤ (sv.Vt.mul sv.U).a := by nlinarith [hD1, hs1]
    have ha1 : (sv.Vt.mul sv.U).a = 1 := by
      rcases mul_self_eq_one_iff.mp hq1sq with h | h
      · exact h
      · rw [h] at hq1nn
        linarith
    have hd2 : (sv.Vt.mul sv.U).d * (sv.Vt.mul sv.U).d = 1 := by
      rw [hb0] at ho4
      simpa using ho4
    exact ⟨ha1, hb0, hc0, hd2⟩
  obtain ⟨ha1, hb0, hc0, hd2⟩ := hQa
  have hdetUV : (sv.U.mul sv.Vt).det = (sv.Vt.mul sv.U).det := by
    rw [mat2_det_mul, mat2_det_mul]
    ring
  have hQdet : (sv.Vt.mul sv.U).det = (sv.Vt.mul sv.U).d := by
    simp [Mat2.det, ha1, hb0, hc0]
  have hQD : (sv.Vt.mul sv.U).mul (Mat2.diag 1 ((sv.U.mul sv.Vt).det)) = Mat2.id2 := by
    rw [mat2_mul_diag, hdetUV, hQdet]
    simp only [Mat2.id2, Mat2.mk.injEq, ha1, hb0, hc0, hd2]
    norm_num
  have hconj : (sv.Vt.mul ((sv.U.mul (Mat2.diag 1 ((sv.U.mul sv.Vt).det))).mul sv.Vt)).mul
      sv.Vt.transpose = Mat2.id2 := by
    rw [← mat2_mul_assoc sv.Vt (sv.U.mul (Mat2.diag 1 ((sv.U.mul sv.Vt).det))) sv.Vt]
    rw [mat2_mul_assoc (sv.Vt.mul (sv.U.mul (Mat2.diag 1 ((sv.U.mul sv.Vt).det)))) sv.Vt
      sv.Vt.transpose]
    rw [hV', mat2_mul_id]
    rw [← mat2_mul_assoc]
    exact hQD
  calc (sv.U.mul (Mat2.diag 1 ((sv.U.mul sv.Vt).det))).mul sv.Vt
      = (sv.Vt.transpose.mul ((sv.Vt.mul
          ((sv.U.mul (Mat2.diag 1 ((sv.U.mul sv.Vt).det))).mul sv.Vt)).mul
          sv.Vt.transpose)).mul sv.Vt := (mat2_conj_cancel hV2).symm
    _ = (sv.Vt.transpose.mul Mat2.id2).mul sv.Vt := by rw [hconj]
    _ = sv.Vt.transpose.mul sv.Vt := by rw [mat2_mul_id]
    _ = Mat2.id2 := hV2

theorem ratSqrt_zero : Rat.sqrt 0 = 0 := by
  simp

/-- C4: self-Procrustes is the identity alignment: for every point set X
and every singular value decomposition of the cross-covariance of its
centred copy with itself, procrustes_align_2d(X, X) returns exactly
(X, I, 1, (0, 0)); and whenever either centred point set has norm below
eps = 1e-8 the function returns exactly (copy of ref, I, 1.0, 0) instead
of failing. -/
theorem c4_self_procrustes :
    (∀ (X : List (ℚ × ℚ)) (sv : SVD2),
      IsSVDOf (crossCov (centerPts X) (centerPts X)) sv →
      procrustes_align_2d X X sv = (X, Mat2.id2, 1, (0, 0))) ∧
    (∀ (u r : List (ℚ × ℚ)) (sv : SVD2),
      (Rat.sqrt (frobSq (centerPts u)) < 1e-8 ∨ Rat.sqrt (frobSq (centerPts r)) < 1e-8) →
      procrustes_align_2d u r sv = (r, Mat2.id2, 1, (0, 0))) := by
  constructor
  · intro X sv hsvd
    by_cases hg : Rat.sqrt (frobSq (centerPts X)) < 1e-8 ∨
        Rat.sqrt (frobSq (centerPts X)) < 1e-8
    · simp only [procrustes_align_2d]
      rw [if_pos hg]
    · simp only [procrustes_align_2d, Bool.not_false]
      rw [if_neg hg]
      push_neg at hg
      have hge : (1e-8 : ℚ) ≤ Rat.sqrt (frobSq (centerPts X)) := hg.1
      have hne : Rat.sqrt (frobSq (centerPts X)) ≠ 0 := by
        intro h0
        rw [h0] at hge
        norm_num at hge
      have hfrob : frobSq (centerPts X) ≠ 0 := by
        intro h0
        apply hne
        rw [h0]
        exact ratSqrt_zero
      have hR := svd_gram_rotation_id (centerPts X) sv hsvd hfrob
      rw [if_pos trivial, hR, div_self hne]
      simp only [Prod.mk.injEq]
      refine ⟨?_, trivial, trivial, ?_⟩
      · simp only [Mat2.mulVec, Mat2.id2, centerPts, List.map_map]
        conv_rhs => rw [← List.map_id X]
        refine List.map_congr_left ?_
        intro p _
        obtain ⟨p1, p2⟩ := p
        simp only [Function.comp_apply, id_eq, Prod.mk.injEq]
        constructor <;> ring
      · simp only [Mat2.mulVec, Mat2.id2, Prod.mk.injEq]
        constructor <;> ring
  · intro u r sv hg
    simp only [procrustes_align_2d]
    rw [if_pos hg]

/-- C4 witness: a concrete point set with a concrete decomposition of
its cross-covariance, and a concrete degenerate call. -/
theorem c4_self_procrustes_witness :
    procrustes_align_2d ptsX4 ptsX4 svdX4 = (ptsX4, Mat2.id2, 1, (0, 0)) ∧
      procrustes_align_2d [((0 : ℚ), (0 : ℚ))] [((5 : ℚ), (5 : ℚ))] svdTrivial =
        ([((5 : ℚ), (5 : ℚ))], Mat2.id2, 1, (0, 0)) := by
  constructor
  · exact c4_self_procrustes.1 ptsX4 svdX4
      ⟨by with_unfolding_all rfl, by with_unfolding_all rfl,
       of_decide_eq_true (by with_unfolding_all rfl),
       of_decide_eq_true (by with_unfolding_all rfl),
       by with_unfolding_all rfl⟩
  · exact c4_self_procrustes.2 [((0 : ℚ), (0 : ℚ))] [((5 : ℚ), (5 : ℚ))] svdTrivial
      (Or.inl (of_decide_eq_true (by with_unfolding_all rfl)))

end GatorMotion
